import Mathlib

/-
Verification of the Degeneracy-Corrected Root Stack (class `HDRS` in
`Kinetic_data_structures/include/CGAL/Kinetic/Handle_degeneracy_function_kernel.h`).

The wrapper owns an underlying root-stack solver (external: here modelled by
its observable state, the ordered list of remaining roots, with top = head,
pop = tail, empty = isEmpty) and a multiplicity classifier `iem_` captured at
construction.  The solver's numeric `estimate()` and its stream output are
external const functions of the solver state; they are modelled as function
parameters `sest` / `swrite` applied to the solver-state field.
-/

/-- Sign type, modelling `CGAL::POLYNOMIAL::Sign` restricted to the three
values the constructor compares against. -/
inductive Sign where
  | NEGATIVE : Sign
  | ZERO : Sign
  | POSITIVE : Sign
deriving DecidableEq, Repr

/-- State of the degeneracy-corrected root stack, mirroring the data members
of `HDRS` in declaration order: the wrapped solver `solver_` (modelled by the
ordered list of roots it still holds), `extraRoot_`, `one_even_`,
`has_extra_`, and the captured classifier `iem_`. -/
structure HDRS (α : Type) where
  solver_ : List α
  extraRoot_ : α
  one_even_ : Bool
  has_extra_ : Bool
  iem_ : α → Bool

namespace HDRS

variable {α : Type}

/-- Constructor `HDRS(uf, lb, ub, k)`.  The underlying solver is built from
`(uf, lb, ub)`; its resulting root list is the parameter `roots`.  The functor
`k.sign_between_roots_object(lb, solver_.top())(uf)` is modelled by
`sbr lb top`, and `k.is_even_multiplicity_object(uf)` by `iem`.  In the
NEGATIVE branch the body sets `extraRoot_ = lb` and `has_extra_ = true`;
otherwise `has_extra_ = false` and `extraRoot_` keeps its default-constructed
value.  `one_even_` is assigned `false` in both cases. -/
def make [Inhabited α] (roots : List α) (lb : α) (sbr : α → α → Sign)
    (iem : α → Bool) : HDRS α :=
  if sbr lb (roots.headD default) = Sign.NEGATIVE then
    { solver_ := roots, extraRoot_ := lb, one_even_ := false,
      has_extra_ := true, iem_ := iem }
  else
    { solver_ := roots, extraRoot_ := default, one_even_ := false,
      has_extra_ := false, iem_ := iem }

/-- The constructor prints the "Degeneracy for ..." diagnostic line exactly in
the branch where the sign between `lb` and the solver top is NEGATIVE. -/
def makeEmitsDiagnostic [Inhabited α] (roots : List α) (lb : α)
    (sbr : α → α → Sign) : Bool :=
  sbr lb (roots.headD default) = Sign.NEGATIVE

/-- Method `top()`: return `extraRoot_` while `has_extra_`, otherwise the
underlying solver's top.  It is `const` in the source; here it is a pure
function of the state. -/
def top [Inhabited α] (s : HDRS α) : α :=
  if s.has_extra_ then s.extraRoot_ else s.solver_.headD default

/-- Method `pop()`: clear the synthetic root if pending; else suppress an
even-multiplicity top once via `one_even_`; else pop the underlying solver
and reset `one_even_`. -/
def pop [Inhabited α] (s : HDRS α) : HDRS α :=
  if s.has_extra_ then
    { s with extraRoot_ := default, has_extra_ := false }
  else if !s.one_even_ && s.iem_ (s.solver_.headD default) then
    { s with one_even_ := true }
  else
    { s with solver_ := s.solver_.tail, one_even_ := false }

/-- Method `empty()`: `!has_extra_ && solver_.empty()`. -/
def empty (s : HDRS α) : Bool :=
  !s.has_extra_ && s.solver_.isEmpty

/-- Method `estimate()`: delegates to `solver_.estimate()`.  The external
solver's estimate is a const function of the solver state, modelled by the
parameter `sest`. -/
def estimate (s : HDRS α) (sest : List α → Int) : Int :=
  sest s.solver_

/-- Method `write(out)`: writes `out << solver_`.  The external solver's
stream output is a const function of the solver state, modelled by the
parameter `swrite`. -/
def write (s : HDRS α) (swrite : List α → String) : String :=
  swrite s.solver_

/-- Iterated `pop()`: `popN s n` is the state after `n` calls to `pop`. -/
def popN [Inhabited α] (s : HDRS α) : Nat → HDRS α
  | 0 => s
  | n + 1 => s.pop.popN n

/-- States reachable from a valid construction by `pop()` calls on non-empty
states (`top()` is const and does not change the state). -/
inductive Reachable [Inhabited α] : HDRS α → Prop where
  | init (roots : List α) (lb : α) (sbr : α → α → Sign) (iem : α → Bool) :
      Reachable (make roots lb sbr iem)
  | step (s : HDRS α) : Reachable s → s.empty = false → Reachable s.pop

/-- Total number of `pop()` calls needed to drain an underlying root list:
an even-multiplicity root costs two calls (one suppression, one real pop),
any other root costs one. -/
def popCost (iem : α → Bool) (roots : List α) : Nat :=
  roots.foldr (fun r acc => acc + (if iem r then 2 else 1)) 0

end HDRS

namespace HDRS

variable {α : Type}

/-- Unfolding lemma: zero `pop` calls leave the state unchanged. -/
theorem popN_zero [Inhabited α] (s : HDRS α) : s.popN 0 = s := rfl

/-- Unfolding lemma: `n + 1` calls are one `pop` followed by `n` calls. -/
theorem popN_succ [Inhabited α] (s : HDRS α) (n : Nat) :
    s.popN (n + 1) = s.pop.popN n := rfl

/-- After any `pop()`, no synthetic extra root is pending: the first branch
clears `has_extra_`, and the other two branches are reached only when it was
already false and do not touch it. -/
theorem pop_has_extra [Inhabited α] (s : HDRS α) : s.pop.has_extra_ = false := by
  unfold pop
  split
  · rfl
  · rename_i hne
    split
    · simpa using hne
    · simpa using hne

/-- Invariant: in every reachable state, a pending synthetic extra root
implies that no even-multiplicity suppression is pending.  At construction
`one_even_` is false; after any `pop()` `has_extra_` is false. -/
theorem reachable_extra_imp_not_even [Inhabited α] {s : HDRS α}
    (hr : Reachable s) : s.has_extra_ = true → s.one_even_ = false := by
  induction hr with
  | init roots lb sbr iem =>
    unfold make
    split <;> intro _ <;> rfl
  | step s hs hne ih =>
    intro h
    rw [pop_has_extra s] at h
    exact absurd h (by simp)

/-- Draining lemma: from a state with no pending extra root and no pending
even suppression, exactly `popCost iem roots` calls to `pop()` empty the
stack, and it is non-empty after any smaller number of calls. -/
theorem drain_spec [Inhabited α] (iem : α → Bool) (ex : α) :
    ∀ roots : List α,
      ((⟨roots, ex, false, false, iem⟩ : HDRS α).popN
          (popCost iem roots)).empty = true ∧
      ∀ k, k < popCost iem roots →
        ((⟨roots, ex, false, false, iem⟩ : HDRS α).popN k).empty = false := by
  intro roots
  induction roots with
  | nil =>
    refine ⟨by simp [popN, popCost, empty], ?_⟩
    intro k hk
    simp [popCost] at hk
  | cons r rest ih =>
    by_cases h : iem r = true
    · have hc : popCost iem (r :: rest) = popCost iem rest + 2 := by
        simp [popCost, h]
      have hp : (⟨r :: rest, ex, false, false, iem⟩ : HDRS α).pop =
          ⟨r :: rest, ex, true, false, iem⟩ := by
        simp [pop, h]
      have hpp : (⟨r :: rest, ex, true, false, iem⟩ : HDRS α).pop =
          ⟨rest, ex, false, false, iem⟩ := by
        simp [pop]
      constructor
      · rw [hc]
        have e2 : (⟨r :: rest, ex, false, false, iem⟩ : HDRS α).popN
              (popCost iem rest + 2) =
            ((⟨r :: rest, ex, false, false, iem⟩ : HDRS α).pop.pop).popN
              (popCost iem rest) := rfl
        rw [e2, hp, hpp]
        exact ih.1
      · intro k hk
        rw [hc] at hk
        rcases k with _ | k
        · simp [popN, empty]
        rcases k with _ | j
        · have e1 : (⟨r :: rest, ex, false, false, iem⟩ : HDRS α).popN 1 =
              (⟨r :: rest, ex, false, false, iem⟩ : HDRS α).pop := rfl
          rw [e1, hp]
          simp [empty]
        · have e2 : (⟨r :: rest, ex, false, false, iem⟩ : HDRS α).popN (j + 2) =
              ((⟨r :: rest, ex, false, false, iem⟩ : HDRS α).pop.pop).popN j := rfl
          rw [e2, hp, hpp]
          exact ih.2 j (by omega)
    · rw [Bool.not_eq_true] at h
      have hc : popCost iem (r :: rest) = popCost iem rest + 1 := by
        simp [popCost, h]
      have hp : (⟨r :: rest, ex, false, false, iem⟩ : HDRS α).pop =
          ⟨rest, ex, false, false, iem⟩ := by
        simp [pop, h]
      constructor
      · rw [hc, popN_succ, hp]
        exact ih.1
      · intro k hk
        rw [hc] at hk
        rcases k with _ | j
        · simp [popN, empty]
        · rw [popN_succ, hp]
          exact ih.2 j (by omega)

end HDRS

open HDRS

/-- C1: for every reachable non-empty state, `pop()` is a three-way branch:
a pending synthetic root is cleared (default `extraRoot_`, `has_extra_`
false) leaving `one_even_` and the underlying stack untouched; otherwise a
first encounter with an even-multiplicity underlying top only sets
`one_even_` without advancing the underlying stack; otherwise the underlying
stack is popped and `one_even_` reset to false. -/
theorem C1_pop_three_way {α : Type} [Inhabited α] (s : HDRS α)
    (hr : Reachable s) (hne : s.empty = false) :
    (s.has_extra_ = true →
      s.pop.extraRoot_ = default ∧ s.pop.has_extra_ = false ∧
      s.pop.one_even_ = s.one_even_ ∧ s.pop.solver_ = s.solver_) ∧
    (s.has_extra_ = false → s.one_even_ = false →
      s.iem_ (s.solver_.headD default) = true →
      s.pop.one_even_ = true ∧ s.pop.solver_ = s.solver_ ∧
      s.pop.has_extra_ = false) ∧
    (s.has_extra_ = false →
      (s.one_even_ = true ∨ s.iem_ (s.solver_.headD default) = false) →
      s.pop.solver_ = s.solver_.tail ∧ s.pop.one_even_ = false ∧
      s.pop.has_extra_ = false) := by
  refine ⟨?_, ?_, ?_⟩
  · intro h
    have e : s.pop = { s with extraRoot_ := default, has_extra_ := false } := by
      unfold pop
      rw [if_pos h]
    rw [e]
    exact ⟨rfl, rfl, rfl, rfl⟩
  · intro h1 h2 h3
    have e : s.pop = { s with one_even_ := true } := by
      unfold pop
      rw [if_neg (by simp [h1]),
        if_pos (by simp only [h2, Bool.not_false, Bool.true_and]; exact h3)]
    rw [e]
    exact ⟨rfl, rfl, h1⟩
  · intro h1 h2
    have e : s.pop = { s with solver_ := s.solver_.tail, one_even_ := false } := by
      unfold pop
      refine (if_neg (by simp [h1])).trans (if_neg ?_)
      rcases h2 with h2 | h2
      · simp only [h2, Bool.not_true, Bool.false_and]
        exact Bool.false_ne_true
      · simp only [h2, Bool.and_false]
        exact Bool.false_ne_true
    rw [e]
    exact ⟨rfl, rfl, h1⟩

/-- C1 witness: the three-way branch theorem applied to the concrete
degenerate construction over roots `[3, 5]`. -/
theorem C1_pop_three_way_witness :
    (HDRS.make [(3 : Int), 5] (-1) (fun _ _ => Sign.NEGATIVE)
        (fun r => r == 4)).pop.has_extra_ = false ∧
    (HDRS.make [(3 : Int), 5] (-1) (fun _ _ => Sign.NEGATIVE)
        (fun r => r == 4)).pop.solver_ =
      (HDRS.make [(3 : Int), 5] (-1) (fun _ _ => Sign.NEGATIVE)
        (fun r => r == 4)).solver_ := by
  have h := C1_pop_three_way
    (HDRS.make [(3 : Int), 5] (-1) (fun _ _ => Sign.NEGATIVE) (fun r => r == 4))
    (Reachable.init _ _ _ _) (by decide)
  exact ⟨(h.1 (by decide)).2.1, (h.1 (by decide)).2.2.2⟩

/-- C2 counterexample: underlying roots `[4]` with no degeneracy (sign
POSITIVE, so D = 0) and the classifier reporting 4 as even-multiplicity.
N + D = 1, but after 1 call to `pop()` the stack is not yet empty (the call
only set `one_even_`); it empties only after 2 calls.  So `empty()` does not
become true after exactly N + D pops, and the count is not independent of the
even-multiplicity classification. -/
theorem C2_exact_count_counterexample :
    ((HDRS.make [(4 : Int)] 0 (fun _ _ => Sign.POSITIVE)
        (fun r => r == 4)).popN 1).empty = false ∧
    ((HDRS.make [(4 : Int)] 0 (fun _ _ => Sign.POSITIVE)
        (fun r => r == 4)).popN 2).empty = true := by
  decide

/-- C2 (amended): `empty()` first becomes true after exactly
N + D + E calls to `pop()`, where each underlying root costs one call, each
root the classifier reports as even-multiplicity costs one extra call
(`popCost` sums these, giving N + E), and D is 1 iff a degeneracy was
detected at construction: the state is empty after that many calls and
non-empty after any smaller number. -/
theorem C2_pop_count_amended {α : Type} [Inhabited α] (roots : List α) (lb : α)
    (sbr : α → α → Sign) (iem : α → Bool) :
    ((make roots lb sbr iem).popN
        (popCost iem roots +
          (if sbr lb (roots.headD default) = Sign.NEGATIVE then 1 else 0))).empty
      = true ∧
    ∀ k, k < popCost iem roots +
          (if sbr lb (roots.headD default) = Sign.NEGATIVE then 1 else 0) →
      ((make roots lb sbr iem).popN k).empty = false := by
  by_cases h : sbr lb (roots.headD default) = Sign.NEGATIVE
  · have e : make roots lb sbr iem = ⟨roots, lb, false, true, iem⟩ := by
      unfold make
      rw [if_pos h]
    have hc : (⟨roots, lb, false, true, iem⟩ : HDRS α).has_extra_ = true := rfl
    have ep : (⟨roots, lb, false, true, iem⟩ : HDRS α).pop =
        ⟨roots, default, false, false, iem⟩ := by
      unfold pop
      rw [if_pos hc]
    rw [e, if_pos h]
    constructor
    · rw [popN_succ, ep]
      exact (drain_spec iem default roots).1
    · intro k hk
      rcases k with _ | j
      · rw [popN_zero]
        rfl
      · rw [popN_succ, ep]
        exact (drain_spec iem default roots).2 j (by omega)
  · have e : make roots lb sbr iem = ⟨roots, default, false, false, iem⟩ := by
      unfold make
      rw [if_neg h]
    rw [e, if_neg h, Nat.add_zero]
    exact drain_spec iem default roots

/-- C2 witness: the amended count theorem applied to the concrete even-root
instance: N = 1, D = 0, E = 1, so the stack empties at 2 pops and is still
non-empty after 1. -/
theorem C2_pop_count_amended_witness :
    ((HDRS.make [(4 : Int)] 0 (fun _ _ => Sign.POSITIVE)
        (fun r => r == 4)).popN 2).empty = true ∧
    ((HDRS.make [(4 : Int)] 0 (fun _ _ => Sign.POSITIVE)
        (fun r => r == 4)).popN 1).empty = false := by
  have h := C2_pop_count_amended [(4 : Int)] 0 (fun _ _ => Sign.POSITIVE)
    (fun r => r == 4)
  exact ⟨h.1, h.2 1 (by decide)⟩

/-- C3: at construction, a NEGATIVE sign between `lb` and the underlying top
sets `extraRoot_ = lb` and `has_extra_ = true` and emits the diagnostic
line; any other sign leaves `has_extra_ = false` (and no diagnostic); in all
cases `one_even_` is initialized to false. -/
theorem C3_constructor_state {α : Type} [Inhabited α] (roots : List α) (lb : α)
    (sbr : α → α → Sign) (iem : α → Bool) :
    (sbr lb (roots.headD default) = Sign.NEGATIVE →
      (make roots lb sbr iem).extraRoot_ = lb ∧
      (make roots lb sbr iem).has_extra_ = true ∧
      makeEmitsDiagnostic roots lb sbr = true) ∧
    (sbr lb (roots.headD default) ≠ Sign.NEGATIVE →
      (make roots lb sbr iem).has_extra_ = false ∧
      makeEmitsDiagnostic roots lb sbr = false) ∧
    (make roots lb sbr iem).one_even_ = false := by
  refine ⟨?_, ?_, ?_⟩
  · intro h
    have e : make roots lb sbr iem = ⟨roots, lb, false, true, iem⟩ := by
      unfold make
      rw [if_pos h]
    rw [e]
    refine ⟨rfl, rfl, ?_⟩
    unfold makeEmitsDiagnostic
    exact decide_eq_true h
  · intro h
    have e : make roots lb sbr iem = ⟨roots, default, false, false, iem⟩ := by
      unfold make
      rw [if_neg h]
    rw [e]
    refine ⟨rfl, ?_⟩
    unfold makeEmitsDiagnostic
    exact decide_eq_false h
  · unfold make
    split <;> rfl

/-- C3 witness: the constructor theorem applied to a degenerate (NEGATIVE
sign) instance and to a non-degenerate (POSITIVE sign) instance. -/
theorem C3_constructor_state_witness :
    (HDRS.make [(3 : Int), 5] (-1) (fun _ _ => Sign.NEGATIVE)
        (fun r => r == 4)).extraRoot_ = -1 ∧
    (HDRS.make [(2 : Int), 5] 0 (fun _ _ => Sign.POSITIVE)
        (fun r => r == 4)).has_extra_ = false := by
  refine ⟨((C3_constructor_state [(3 : Int), 5] (-1) (fun _ _ => Sign.NEGATIVE)
      (fun r => r == 4)).1 (by decide)).1, ?_⟩
  exact ((C3_constructor_state [(2 : Int), 5] 0 (fun _ _ => Sign.POSITIVE)
      (fun r => r == 4)).2.1 (by decide)).1

/-- C4: when no synthetic root is pending, no suppression is pending, and the
classifier reports the underlying top as even-multiplicity, one `pop()`
leaves `top()` and the underlying stack unchanged (only setting `one_even_`)
and the immediately following `pop()` advances the underlying stack for real
— unconditionally, so two even-multiplicity roots are never both suppressed
without an intervening real pop. -/
theorem C4_even_suppressed_once {α : Type} [Inhabited α] (s : HDRS α)
    (h1 : s.has_extra_ = false) (h2 : s.one_even_ = false)
    (h3 : s.iem_ (s.solver_.headD default) = true) :
    s.pop.top = s.top ∧ s.pop.solver_ = s.solver_ ∧ s.pop.one_even_ = true ∧
    s.pop.pop.solver_ = s.solver_.tail ∧ s.pop.pop.one_even_ = false := by
  have e : s.pop = { s with one_even_ := true } := by
    unfold pop
    rw [if_neg (by simp [h1]),
      if_pos (by simp only [h2, Bool.not_false, Bool.true_and]; exact h3)]
  have e2 : s.pop.pop = { s with solver_ := s.solver_.tail, one_even_ := false } := by
    rw [e]
    unfold pop
    rw [if_neg (by simp [h1]), if_neg (by simp)]
  refine ⟨?_, by rw [e], by rw [e], by rw [e2], by rw [e2]⟩
  rw [e]
  unfold top
  rw [if_neg (by simp [h1])]

/-- C4 witness: the suppression theorem applied to the concrete instance with
underlying roots `[4, 7]` where 4 is classified even-multiplicity. -/
theorem C4_even_suppressed_once_witness :
    (HDRS.make [(4 : Int), 7] 0 (fun _ _ => Sign.POSITIVE)
        (fun r => r == 4)).pop.top =
      (HDRS.make [(4 : Int), 7] 0 (fun _ _ => Sign.POSITIVE)
        (fun r => r == 4)).top ∧
    (HDRS.make [(4 : Int), 7] 0 (fun _ _ => Sign.POSITIVE)
        (fun r => r == 4)).pop.pop.solver_ =
      (HDRS.make [(4 : Int), 7] 0 (fun _ _ => Sign.POSITIVE)
        (fun r => r == 4)).solver_.tail := by
  have h := C4_even_suppressed_once
    (HDRS.make [(4 : Int), 7] 0 (fun _ _ => Sign.POSITIVE) (fun r => r == 4))
    (by decide) (by decide) (by decide)
  exact ⟨h.1, h.2.2.2.1⟩

/-- C5: whenever the stack is non-empty, `top()` returns `extraRoot_` if a
synthetic root is pending and the underlying top otherwise (it is a pure
function of the state, modifying nothing); and `empty()` holds exactly when
no synthetic root is pending and the underlying stack is empty. -/
theorem C5_top_and_empty {α : Type} [Inhabited α] (s : HDRS α)
    (hr : Reachable s) :
    (s.empty = false →
      (s.has_extra_ = true → s.top = s.extraRoot_) ∧
      (s.has_extra_ = false → s.top = s.solver_.headD default)) ∧
    (s.empty = true ↔ s.has_extra_ = false ∧ s.solver_ = []) := by
  constructor
  · intro _
    constructor
    · intro h
      unfold top
      rw [if_pos h]
    · intro h
      unfold top
      rw [if_neg (by simp [h])]
  · unfold empty
    simp

/-- C5 witness: the top/empty characterization applied to the concrete
degenerate construction, whose `top()` is the pending extra root. -/
theorem C5_top_and_empty_witness :
    (HDRS.make [(3 : Int), 5] (-1) (fun _ _ => Sign.NEGATIVE)
        (fun r => r == 4)).top =
      (HDRS.make [(3 : Int), 5] (-1) (fun _ _ => Sign.NEGATIVE)
        (fun r => r == 4)).extraRoot_ := by
  have h := C5_top_and_empty
    (HDRS.make [(3 : Int), 5] (-1) (fun _ _ => Sign.NEGATIVE) (fun r => r == 4))
    (Reachable.init _ _ _ _)
  exact (h.1 (by decide)).1 (by decide)

/-- C6: when the sign between `lb` and the underlying top is NEGATIVE at
construction, the first `top()` returns exactly `lb`, and the first `pop()`
clears the synthetic root (default `extraRoot_`, `has_extra_` false) while
leaving the underlying root list completely unchanged. -/
theorem C6_degeneracy_first_event {α : Type} [Inhabited α] (roots : List α)
    (lb : α) (sbr : α → α → Sign) (iem : α → Bool)
    (h : sbr lb (roots.headD default) = Sign.NEGATIVE) :
    (make roots lb sbr iem).top = lb ∧
    (make roots lb sbr iem).pop.has_extra_ = false ∧
    (make roots lb sbr iem).pop.extraRoot_ = default ∧
    (make roots lb sbr iem).pop.solver_ = roots ∧
    (make roots lb sbr iem).pop.one_even_ = false := by
  have e : make roots lb sbr iem = ⟨roots, lb, false, true, iem⟩ := by
    unfold make
    rw [if_pos h]
  have hc : (⟨roots, lb, false, true, iem⟩ : HDRS α).has_extra_ = true := rfl
  have e2 : (⟨roots, lb, false, true, iem⟩ : HDRS α).pop =
      ⟨roots, default, false, false, iem⟩ := by
    unfold pop
    rw [if_pos hc]
  rw [e, e2]
  refine ⟨?_, rfl, rfl, rfl, rfl⟩
  unfold top
  rw [if_pos hc]

/-- C6 witness: the degenerate-construction theorem at `lb = -1` with
underlying roots `[3, 5]`. -/
theorem C6_degeneracy_first_event_witness :
    (HDRS.make [(3 : Int), 5] (-1) (fun _ _ => Sign.NEGATIVE)
        (fun r => r == 4)).top = -1 ∧
    (HDRS.make [(3 : Int), 5] (-1) (fun _ _ => Sign.NEGATIVE)
        (fun r => r == 4)).pop.solver_ = [3, 5] := by
  have h := C6_degeneracy_first_event [(3 : Int), 5] (-1)
    (fun _ _ => Sign.NEGATIVE) (fun r => r == 4) (by decide)
  exact ⟨h.1, h.2.2.2.1⟩

/-- C7: in every reachable non-empty state, `one_even_` is false after any
`pop()` that clears the synthetic extra root (it was already false by the
mutual-exclusion invariant and is left untouched), and after any `pop()`
that actually pops the underlying stack (it is explicitly reset). -/
theorem C7_one_even_false_after_advance {α : Type} [Inhabited α] (s : HDRS α)
    (hr : Reachable s) (hne : s.empty = false) :
    (s.has_extra_ = true → s.pop.one_even_ = false) ∧
    (s.has_extra_ = false →
      (s.one_even_ = true ∨ s.iem_ (s.solver_.headD default) = false) →
      s.pop.one_even_ = false) := by
  constructor
  · intro h
    have hoe := reachable_extra_imp_not_even hr h
    have e : s.pop = { s with extraRoot_ := default, has_extra_ := false } := by
      unfold pop
      rw [if_pos h]
    rw [e]
    exact hoe
  · intro h1 h2
    have e : s.pop = { s with solver_ := s.solver_.tail, one_even_ := false } := by
      unfold pop
      refine (if_neg (by simp [h1])).trans (if_neg ?_)
      rcases h2 with h2 | h2
      · simp only [h2, Bool.not_true, Bool.false_and]
        exact Bool.false_ne_true
      · simp only [h2, Bool.and_false]
        exact Bool.false_ne_true
    rw [e]

/-- C7 witness: the reset theorem applied to the degenerate construction
(extra-root-clearing pop) at a concrete input. -/
theorem C7_one_even_false_after_advance_witness :
    (HDRS.make [(3 : Int), 5] (-1) (fun _ _ => Sign.NEGATIVE)
        (fun r => r == 4)).pop.one_even_ = false := by
  have h := C7_one_even_false_after_advance
    (HDRS.make [(3 : Int), 5] (-1) (fun _ _ => Sign.NEGATIVE) (fun r => r == 4))
    (Reachable.init _ _ _ _) (by decide)
  exact h.1 (by decide)

/-- C8: in every reachable state, `has_extra_` and `one_even_` are never
simultaneously true: `one_even_` is false at construction and `has_extra_`
is false after every `pop()`. -/
theorem C8_extra_even_mutually_exclusive {α : Type} [Inhabited α]
    (s : HDRS α) (hr : Reachable s) :
    ¬(s.has_extra_ = true ∧ s.one_even_ = true) := by
  rintro ⟨h1, h2⟩
  have h3 := reachable_extra_imp_not_even hr h1
  rw [h3] at h2
  exact Bool.false_ne_true h2

/-- C8 witness: mutual exclusion at the concrete degenerate construction. -/
theorem C8_extra_even_mutually_exclusive_witness :
    ¬((HDRS.make [(3 : Int), 5] (-1) (fun _ _ => Sign.NEGATIVE)
        (fun r => r == 4)).has_extra_ = true ∧
      (HDRS.make [(3 : Int), 5] (-1) (fun _ _ => Sign.NEGATIVE)
        (fun r => r == 4)).one_even_ = true) :=
  C8_extra_even_mutually_exclusive _ (Reachable.init _ _ _ _)

/-- C9: `estimate()` delegates to the underlying solver's estimate (modelled
by `sest` applied to the solver state), so it agrees between any two states
with equal underlying stacks regardless of `has_extra_` / `one_even_`; in
particular, while `has_extra_` is true it still reports the underlying
estimate even though `top()` returns `extraRoot_`. -/
theorem C9_estimate_delegates {α : Type} [Inhabited α] (sest : List α → Int)
    (s t : HDRS α) (hsolver : s.solver_ = t.solver_) :
    s.estimate sest = sest s.solver_ ∧
    s.estimate sest = t.estimate sest ∧
    (s.has_extra_ = true →
      s.top = s.extraRoot_ ∧ s.estimate sest = sest s.solver_) := by
  refine ⟨rfl, ?_, ?_⟩
  · unfold estimate
    rw [hsolver]
  · intro h
    refine ⟨?_, rfl⟩
    unfold top
    rw [if_pos h]

/-- C9 witness: the delegation theorem comparing the degenerate construction
with a bookkeeping-flipped state holding the same underlying roots. -/
theorem C9_estimate_delegates_witness :
    (HDRS.make [(3 : Int), 5] (-1) (fun _ _ => Sign.NEGATIVE)
        (fun r => r == 4)).estimate (fun l => (l.length : Int)) =
      HDRS.estimate (⟨[(3 : Int), 5], 0, true, false, fun _ => true⟩ : HDRS Int)
        (fun l => (l.length : Int)) ∧
    (HDRS.make [(3 : Int), 5] (-1) (fun _ _ => Sign.NEGATIVE)
        (fun r => r == 4)).top =
      (HDRS.make [(3 : Int), 5] (-1) (fun _ _ => Sign.NEGATIVE)
        (fun r => r == 4)).extraRoot_ := by
  have h := C9_estimate_delegates (fun l => (l.length : Int))
    (HDRS.make [(3 : Int), 5] (-1) (fun _ _ => Sign.NEGATIVE) (fun r => r == 4))
    (⟨[(3 : Int), 5], 0, true, false, fun _ => true⟩ : HDRS Int) (by decide)
  exact ⟨h.2.1, (h.2.2 (by decide)).1⟩

/-- C10: `write()` prints only the underlying solver state (modelled by
`swrite` applied to the solver state), so any two states with equal
underlying stacks produce identical output regardless of `has_extra_`,
`extraRoot_` and `one_even_`. -/
theorem C10_write_solver_only {α : Type} (swrite : List α → String)
    (s t : HDRS α) (hsolver : s.solver_ = t.solver_) :
    s.write swrite = t.write swrite := by
  unfold write
  rw [hsolver]

/-- C10 witness: identical `write()` output for two states over roots
`[1, 2]` whose bookkeeping flags and extra roots all differ. -/
theorem C10_write_solver_only_witness :
    HDRS.write (⟨[(1 : Int), 2], 7, true, true, fun _ => false⟩ : HDRS Int)
      (fun l => toString l.length) =
    HDRS.write (⟨[(1 : Int), 2], 0, false, false, fun _ => true⟩ : HDRS Int)
      (fun l => toString l.length) :=
  C10_write_solver_only (fun l => toString l.length) _ _ rfl
